/-
Verification of the py4a API-surface model against its specification.

The definitions below are shallow embeddings of the corresponding Python
functions in the repository (py4a/api/entity.py, py4a/api/diff.py,
py4a/api/static.py, py4a/client/analyzer.py).  Machine strings are modelled
with Lean `String`; Python dictionaries (which preserve insertion order) are
modelled with association lists; Python exceptions are modelled with
`Except`; unbounded recursion (Package.get) is modelled with an explicit
recursion-depth budget whose exhaustion is a distinguished error value.
-/
import Mathlib

namespace Py4a

/-! ## String helpers mirroring Python primitives -/

/-- Python `str.split(c)` on a single-character separator, over char lists:
every occurrence of the separator splits, empty parts are preserved. -/
def splitChar (c : Char) : List Char → List (List Char)
  | [] => [[]]
  | x :: xs =>
    match splitChar c xs with
    | [] => [[x]]
    | y :: ys => if x = c then [] :: y :: ys else (x :: y) :: ys

/-- Python `key.split(".")`. -/
def pySplitDot (s : String) : List String :=
  (splitChar '.' s.data).map String.mk

/-- Python `s.split(c)[0]`: the text before the first occurrence of `c`. -/
def splitHead (c : Char) (s : String) : String :=
  match splitChar c s.data with
  | [] => ""
  | l :: _ => String.mk l

/-- Worker for `replaceList`; the extra `Nat` argument bounds the number of
scanning steps (one step consumes at least one character, so the input
length is always a sufficient bound). -/
def replaceListAux (pat rep : List Char) : Nat → List Char → List Char
  | 0, l => l
  | _ + 1, [] => []
  | n + 1, x :: xs =>
    match pat with
    | [] => x :: xs
    | p :: ps =>
      if (p :: ps).isPrefixOf (x :: xs) then
        rep ++ replaceListAux (p :: ps) rep n (xs.drop ps.length)
      else
        x :: replaceListAux (p :: ps) rep n xs

/-- Python `str.replace(pat, rep)` over char lists (non-overlapping,
left-to-right; the empty pattern leaves the string unchanged, a case the
source never exercises). -/
def replaceList (pat rep l : List Char) : List Char :=
  replaceListAux pat rep l.length l

/-- Python `s.replace(pat, rep)`. -/
def pyReplace (s pat rep : String) : String :=
  String.mk (replaceList pat.data rep.data s.data)

/-- Association-list lookup, mirroring Python `dict[k]` access
(dictionary keys are unique, so first match is the match). -/
def lookupA {α : Type} (l : List (String × α)) (k : String) : Option α :=
  match l with
  | [] => none
  | (k', v) :: rest => if k' = k then some v else lookupA rest k

/-- Association-list membership, mirroring Python `k in dict`. -/
def memA {α : Type} (l : List (String × α)) (k : String) : Bool :=
  match lookupA l k with
  | some _ => true
  | none => false

/-- Association-list update, mirroring Python `dict[k] = v` on an existing
or fresh key. -/
def updateA {α : Type} (l : List (String × α)) (k : String) (v : α) :
    List (String × α) :=
  match l with
  | [] => [(k, v)]
  | (k', v') :: rest =>
    if k' = k then (k, v) :: rest else (k', v') :: updateA rest k v

/-! ## Entity model (py4a/api/entity.py) -/

/-- `Argument` from entity.py: one formal parameter of a function. -/
structure Argument where
  name : String
  type : Option String
  default : Option String
  pos_only : Bool
  kw_only : Bool
  vararg : Bool
  kwarg : Bool
deriving DecidableEq, Repr

/-- `Function` from entity.py. -/
structure Function where
  name : String
  args : List Argument
  returns : Option String
  decorators : List String
  is_async : Bool
deriving DecidableEq, Repr

/-- `Variable` from entity.py; `type` is nominally `str` but the static
extractor passes `None` for tuple-unpacked elements, hence `Option`. -/
structure Variable where
  name : String
  type : Option String
  value : String
deriving DecidableEq, Repr

/-- `Class` from entity.py (recursive through nested classes). -/
inductive Class where
  | mk (name : String) (bases : List String) (fields : List Variable)
      (static_fields : List Variable) (methods : List Function)
      (classes : List Class) (decorators : List String)

/-- The closed entity sum: `Function | Class | Variable | Alias |
WildcardAlias | Package`.  A package's `children` and `entities` are
insertion-ordered maps, modelled as association lists; child values are
always `pkg` nodes in trees the repository builds. -/
inductive Ent where
  | func (f : Function)
  | cls (c : Class)
  | var (v : Variable)
  | alias (name : String) (full_alias : String)
  | wildcard (name : String) (full_aliases : List String)
  | pkg (name : String) (children : List (String × Ent))
      (entities : List (String × Ent))

/-- The `.name` attribute shared by every entity. -/
def nameOf : Ent → String
  | .func f => f.name
  | .cls (.mk n _ _ _ _ _ _) => n
  | .var v => v.name
  | .alias n _ => n
  | .wildcard n _ => n
  | .pkg n _ _ => n

/-- `Function.get_arg` from entity.py: linear scan for the first argument
with the given name; the fall-through `raise None` statement raises a
`TypeError` (exceptions must derive from `BaseException`), modelled as a
distinguished error. -/
inductive PyExc where
  | typeError
  | attrError (msg : String)
deriving DecidableEq, Repr

def getArgLoop (args : List Argument) (name : String) : Except PyExc Argument :=
  match args with
  | [] => .error .typeError
  | a :: rest => if a.name = name then .ok a else getArgLoop rest name

def Function.get_arg (f : Function) (name : String) : Except PyExc Argument :=
  getArgLoop f.args name

/-! ## Signature matcher (py4a/client/analyzer.py, `Call.match`) -/

/-- `Call` from analyzer.py: the recorded shape of one client call. -/
structure Call where
  name : String
  args : Nat
  kwargs : List String
  starargs : Bool
  additional_kwargs : Bool
deriving DecidableEq, Repr

/-- The keyword-argument loop of `Call.match`: returns the first failure
message, if any (the Python loop early-returns on the first bad keyword). -/
def kwLoop (kws : List String) (posonly_args : List String)
    (cand_kwargs : List String) (allow_additional_kwargs : Bool) :
    Option String :=
  match kws with
  | [] => none
  | kw :: rest =>
    if kw ∈ posonly_args then some (kw ++ " is position-only argument")
    else if ¬ kw ∈ cand_kwargs ∧ ¬ allow_additional_kwargs then
      some (kw ++ " is not allowed as keyword argument")
    else kwLoop rest posonly_args cand_kwargs allow_additional_kwargs

/-- The final required-argument loop of `Call.match`. -/
def reqLoop (fname : String) (args : List Argument) (matched : List String)
    (starargs additional_kwargs : Bool) : Option String :=
  match args with
  | [] => none
  | a :: rest =>
    if a.kwarg ∨ a.vararg then
      reqLoop fname rest matched starargs additional_kwargs
    else if a.default = none ∧ ¬ a.name ∈ matched then
      let msg := fname ++ "() missing one required argument " ++ a.name
      if ¬ additional_kwargs ∧ ¬ starargs then some msg
      else if a.kw_only ∧ ¬ additional_kwargs then some msg
      else if a.pos_only ∧ ¬ starargs then some msg
      else reqLoop fname rest matched starargs additional_kwargs
    else reqLoop fname rest matched starargs additional_kwargs

/-- `Call.match` from analyzer.py (named `matchSig` here because `match` is
a Lean keyword): binds the recorded call shape against a function
signature; `class_func` reserves one implicit positional slot for the
receiver. -/
def Call.matchSig (c : Call) (func : Function) (class_func : Bool) :
    Bool × String :=
  let num_args := if class_func then c.args + 1 else c.args
  let cand_posargs :=
    (func.args.filter fun a => ¬ a.kwarg ∧ ¬ a.vararg ∧ ¬ a.kw_only).map
      Argument.name
  let posonly_args := (func.args.filter fun a => a.pos_only).map Argument.name
  let cand_kwargs0 :=
    (func.args.filter fun a => ¬ a.kwarg ∧ ¬ a.vararg ∧ ¬ a.pos_only).map
      Argument.name
  let allow_additional_posargs := func.args.any fun a => a.vararg
  let allow_additional_kwargs := func.args.any fun a => a.kwarg
  if num_args > cand_posargs.length ∧ ¬ allow_additional_posargs then
    let bound := toString cand_posargs.length
    let given := toString num_args
    (false, func.name ++ "() takes up to " ++ bound ++
      " positional arguments but " ++ given ++ " are given")
  else
    let matched0 := cand_posargs.take num_args
    let cand_kwargs := cand_kwargs0.filter fun n => ¬ n ∈ matched0
    match kwLoop c.kwargs posonly_args cand_kwargs allow_additional_kwargs with
    | some msg => (false, msg)
    | none =>
      let matched := matched0 ++ c.kwargs
      match reqLoop func.name func.args matched c.starargs
          c.additional_kwargs with
      | some msg => (false, msg)
      | none => (true, "")

/-! ## Diff engine (py4a/api/diff.py) -/

/-- `DiffType` from diff.py. -/
inductive DiffType where
  | ClsAdd | ClsRem | FuncAdd | FuncRem
  | ReqParamAdd | ReqParamRem | OptParamAdd | OptParamRem
  | ParamReorder | ParamDefValAdd | ParamDefValRem | ParamDefValChg
  | VarAdd | VarRem
deriving DecidableEq, Repr

/-- `Diff` from diff.py (the client-impact counters are zero-filled by the
diff engine itself and carry no information here). -/
structure Diff where
  diff_type : DiffType
  api_name : String
  param : Option String
  old_value : Option String
  new_value : Option String
deriving DecidableEq, Repr

/-- `same_default_value` from diff.py. -/
def same_default_value (v1 v2 : String) : Bool :=
  if v1.startsWith "<" ∧ v2.startsWith "<" then true
  else if v1.contains '(' ∧ v2.contains '(' ∧
      splitHead '(' v1 = splitHead '(' v2 then true
  else if v1 = v2 then true
  else false

/-- Insert a name into an order-preserving set (Python `set.add`: the
element keeps its first insertion position). -/
def addName (l : List String) (n : String) : List String :=
  if n ∈ l then l else l ++ [n]

/-- One pass of the parameter-scanning loop of `diff_function`: collects the
parameter-name set, the optional (defaulted) subset, the name → default map
and the name → position map, in iteration order. -/
def scanParams : List Argument → Nat → List String → List String →
    List (String × String) → List (String × Nat) →
    List String × List String × List (String × String) × List (String × Nat)
  | [], _, p_all, opt, p2def, p2pos => (p_all, opt, p2def, p2pos)
  | a :: rest, pos, p_all, opt, p2def, p2pos =>
    let p_all' := addName p_all a.name
    match a.default with
    | some d =>
        scanParams rest (pos + 1) p_all' (addName opt a.name)
          (updateA p2def a.name d) (updateA p2pos a.name pos)
    | none =>
        scanParams rest (pos + 1) p_all' opt p2def (updateA p2pos a.name pos)

/-- `diff_function` from diff.py.  Python iterates the derived `set`s in an
unspecified order; here the set differences and the intersection are
iterated in first-occurrence order of the underlying argument lists, which
fixes an order without changing the multiset of emitted diffs. -/
def diff_function (old new : Function) (full_name : String) : List Diff :=
  let so := scanParams old.args 0 [] [] [] []
  let sn := scanParams new.args 0 [] [] [] []
  let p_all_old := so.1
  let opt_old := so.2.1
  let p2def_old := so.2.2.1
  let p2pos_old := so.2.2.2
  let p_all_new := sn.1
  let opt_new := sn.2.1
  let p2def_new := sn.2.2.1
  let p2pos_new := sn.2.2.2
  let added := (p_all_new.filter fun p => ¬ p ∈ p_all_old).map fun p =>
    if p ∈ opt_new then
      Diff.mk .OptParamAdd full_name (some p) none none
    else
      Diff.mk .ReqParamAdd full_name (some p) none none
  let removed := (p_all_old.filter fun p => ¬ p ∈ p_all_new).map fun p =>
    if p ∈ opt_old then
      Diff.mk .OptParamRem full_name (some p) none none
    else
      Diff.mk .ReqParamRem full_name (some p) none none
  let common := (p_all_old.filter fun p => p ∈ p_all_new).map fun p =>
    let defRem :=
      if p ∈ opt_old ∧ ¬ p ∈ opt_new then
        [Diff.mk .ParamDefValAdd full_name (some p) (lookupA p2def_old p) none]
      else []
    let defAdd :=
      if ¬ p ∈ opt_old ∧ p ∈ opt_new then
        [Diff.mk .ParamDefValRem full_name (some p) none (lookupA p2def_new p)]
      else []
    let defChg :=
      if p ∈ opt_old ∧ p ∈ opt_new ∧
          ¬ same_default_value ((lookupA p2def_old p).getD "")
            ((lookupA p2def_new p).getD "") then
        [Diff.mk .ParamDefValChg full_name (some p) (lookupA p2def_old p)
          (lookupA p2def_new p)]
      else []
    let reorder :=
      if lookupA p2pos_old p ≠ lookupA p2pos_new p then
        [Diff.mk .ParamReorder full_name (some p) none none]
      else []
    defRem ++ defAdd ++ defChg ++ reorder
  added ++ removed ++ common.flatten

/-! ## Reference resolver (py4a/api/entity.py, `Package.__getitem__` and
`Package.get`)

`__getitem__` is embedded in state-passing style: it returns the looked-up
entity together with the package tree as left behind by the lookup, so that
the frame property "resolution does not mutate the tree" is an actual
statement about the embedding.  The only Python statements that write
anything are the two field assignments on the `deepcopy` of a stored
`WildcardAlias`, which the embedding renders as the construction of a fresh
value; every other step only reads. -/

/-- Resolution failures: `KeyError msg` (the only exception `get` handles),
`AttributeError` (reading `full_aliases` off a non-wildcard `"*"` entry),
and exhaustion of the recursion budget that models Python's unbounded
recursion in `Package.get`. -/
inductive RErr where
  | keyError (msg : String)
  | attrError (attr : String)
  | fuelOut
deriving DecidableEq, Repr

/-- The body of `Package.__getitem__`'s loop over `keys[1:]`: walks
children first, then entities, and synthesizes a fresh wildcard copy for an
unknown final segment when a `"*"` entry exists.  Returns the result paired
with the (reassembled, hence demonstrably unchanged) subtree. -/
def getitemWalk (key : String) : Ent → List String → (Except RErr Ent) × Ent
  | res, [] => (.ok res, res)
  | res, k :: rest =>
    match res with
    | .pkg n children entities =>
      match lookupA children k with
      | some c =>
        let r := getitemWalk key c rest
        (r.1, .pkg n (updateA children k r.2) entities)
      | none =>
        match lookupA entities k with
        | some e =>
          let r := getitemWalk key e rest
          (r.1, .pkg n children (updateA entities k r.2))
        | none =>
          match lookupA entities "*" with
          | some w =>
            if rest = [] then
              match w with
              | .wildcard wn fulls =>
                (.ok (.wildcard (pyReplace wn "*" k)
                  (fulls.map fun x => pyReplace x "*" k)),
                  .pkg n children entities)
              | _ => (.error (.attrError "full_aliases"),
                  .pkg n children entities)
            else
              (.error (.keyError
                (key ++ " does not correspond to an API entity")),
                .pkg n children entities)
          | none =>
            (.error (.keyError
              (key ++ " does not correspond to an API entity")),
              .pkg n children entities)
    | other =>
      (.error (.keyError (key ++ " does not correspond to an API entity")),
        other)

/-- `Package.__getitem__`, state-passing: result plus the tree after the
lookup. -/
def Ent.getitemSt (self : Ent) (key : String) : (Except RErr Ent) × Ent :=
  match pySplitDot key with
  | [] => (.error (.keyError (key ++ " does not belong to this package")),
      self)
  | k0 :: rest =>
    if k0 = nameOf self then getitemWalk key self rest
    else (.error (.keyError (key ++ " does not belong to this package")),
      self)

/-- `Package.__getitem__`, value part. -/
def Ent.getitem (self : Ent) (key : String) : Except RErr Ent :=
  (self.getitemSt key).1

/-- The `for alias in aliases` loop of `Package.get`.  A revisited alias
raises the cyclic-reference `KeyError` (uncaught at this level); each alias
is retried through `recur` (the recursive `get` call) with `KeyError`
caught and turned into `continue`; when the loop runs out, the
cannot-be-resolved `KeyError` is raised.  Aliases whose leading segment is
neither this package nor a known top level simply fall through to the next
alias (the Python `try` body ends without returning). -/
def tryAliases (recur : Ent → String → List String → Except RErr Ent)
    (self : Ent) (key : String) (top_levels : List (String × Ent))
    (prev_aliases : List String) : List String → Except RErr Ent
  | [] => .error (.keyError (key ++ " cannot be resolved in this package"))
  | a :: rest =>
    if a ∈ prev_aliases then
      .error (.keyError (key ++ " is a cyclic reference"))
    else
      let top := splitHead '.' a
      let target :=
        if top = nameOf self then some self else lookupA top_levels top
      match target with
      | some p =>
        match recur p a (prev_aliases ++ [a]) with
        | .ok r => .ok r
        | .error (.keyError _) =>
          tryAliases recur self key top_levels prev_aliases rest
        | .error e => .error e
      | none => tryAliases recur self key top_levels prev_aliases rest

/-- `Package.get`, with an explicit recursion-depth budget standing in for
Python's call stack: exceeding the budget yields `RErr.fuelOut`, which like
Python's `RecursionError` is not a `KeyError` and is never caught by the
alias loop. -/
def Ent.get : Nat → Ent → String → List (String × Ent) → List String →
    Except RErr Ent
  | 0, _, _, _, _ => .error .fuelOut
  | fuel + 1, self, key, top_levels, prev_aliases =>
    match self.getitem key with
    | .error e => .error e
    | .ok res =>
      match res with
      | .alias _ full =>
        tryAliases (fun p a prev => Ent.get fuel p a top_levels prev)
          self key top_levels prev_aliases [full]
      | .wildcard _ fulls =>
        tryAliases (fun p a prev => Ent.get fuel p a top_levels prev)
          self key top_levels prev_aliases fulls
      | r => .ok r

/-! ## Static extractor (py4a/api/static.py)

A small model of the Python `ast` nodes the extractor inspects.
Expressions the extractor never destructures are carried as their
`ast.unparse` text (`const`). -/

inductive PyExpr where
  | name (id : String)
  | attr (value : PyExpr) (attrName : String)
  | tupleE (elts : List PyExpr)
  | listE (elts : List PyExpr)
  | const (text : String)

mutual
/-- `ast.unparse` on the modelled expressions. -/
def unparse : PyExpr → String
  | .name id => id
  | .attr v a => unparse v ++ "." ++ a
  | .tupleE es =>
    let texts := unparseList es
    if texts.length = 1 then "(" ++ String.intercalate ", " texts ++ ",)"
    else "(" ++ String.intercalate ", " texts ++ ")"
  | .listE es => "[" ++ String.intercalate ", " (unparseList es) ++ "]"
  | .const t => t

/-- `ast.unparse` mapped over a list of expressions. -/
def unparseList : List PyExpr → List String
  | [] => []
  | e :: rest => unparse e :: unparseList rest
end

/-- `ast.arg`: parameter name plus optional annotation. -/
structure PyArg where
  arg : String
  anno : Option PyExpr

/-- `ast.arguments`. -/
structure PyArgs where
  posonlyargs : List PyArg
  args : List PyArg
  defaults : List PyExpr
  vararg : Option PyArg
  kwonlyargs : List PyArg
  kw_defaults : List (Option PyExpr)
  kwarg : Option PyArg

/-- `arg_type` lambda inside `_convert_arguments`. -/
def arg_type (a : PyArg) : Option String := a.anno.map unparse

/-- `_convert_arguments` from static.py.  `default_starts` is
`len(posonlyargs) + len(args) - len(defaults)`: the condition
`i >= default_starts` and the index `i - default_starts` are rewritten in
`Nat` arithmetic as `total ≤ i + numDefaults` and `i + numDefaults - total`,
which agree with the Python integers whenever the index is taken.  In a
well-formed `ast.arguments` the index is always in range and `kw_defaults`
is parallel to `kwonlyargs`, so the `Option` lookups are always `some`. -/
def convert_arguments (arguments : PyArgs) : List Argument :=
  let posAndArgs := arguments.posonlyargs ++ arguments.args
  let total := posAndArgs.length
  let numDefaults := arguments.defaults.length
  let results1 := posAndArgs.enum.map fun (i, a) =>
    let default :=
      if total ≤ i + numDefaults then
        (arguments.defaults.get? (i + numDefaults - total)).map unparse
      else none
    Argument.mk a.arg (arg_type a) default
      (decide (i < arguments.posonlyargs.length)) false false false
  let results2 :=
    match arguments.vararg with
    | some a => [Argument.mk a.arg (arg_type a) none false false true false]
    | none => []
  let results3 := arguments.kwonlyargs.enum.map fun (i, a) =>
    let default := ((arguments.kw_defaults.get? i).bind id).map unparse
    Argument.mk a.arg (arg_type a) default false true false false
  let results4 :=
    match arguments.kwarg with
    | some a => [Argument.mk a.arg (arg_type a) none false false false true]
    | none => []
  results1 ++ results2 ++ results3 ++ results4

/-- Statement nodes the extractor distinguishes.  `block` stands for any
other compound statement (`if`, `for`, `with`, …): the visitor has no
handler for those, so `generic_visit` recurses into their children. -/
inductive PyStmt where
  | funcDef (name : String) (args : PyArgs) (body : List PyStmt)
      (decorator_list : List PyExpr) (returns : Option PyExpr)
  | asyncFuncDef (name : String) (args : PyArgs) (body : List PyStmt)
      (decorator_list : List PyExpr) (returns : Option PyExpr)
  | classDef (name : String) (bases : List PyExpr) (body : List PyStmt)
      (decorator_list : List PyExpr)
  | assign (targets : List PyExpr) (value : PyExpr)
  | annAssign (target : PyExpr) (anno : PyExpr) (value : Option PyExpr)
  | imp (names : List (String × Option String))
  | impFrom (module : Option String)
      (names : List (String × Option String)) (level : Nat)
  | exprStmt (e : PyExpr)
  | block (body : List PyStmt)

/-- Python-facing errors of the extractor embedding. -/
inductive CvErr where
  | indexError
deriving DecidableEq, Repr

/-- The element-value computation shared (textually repeated) by
`_convert_variables` and `_convert_class_fields`: the `i`-th element text
of a tuple/list literal right-hand side (raising `IndexError` when too
short), or the synthetic indexed access `rhs[i]` otherwise. -/
def elemValue (value : PyExpr) (i : Nat) : Except CvErr String :=
  match value with
  | .tupleE velts =>
    match velts.get? i with
    | some ve => .ok (unparse ve)
    | none => .error .indexError
  | .listE velts =>
    match velts.get? i with
    | some ve => .ok (unparse ve)
    | none => .error .indexError
  | _ => .ok (unparse value ++ "[" ++ toString i ++ "]")

/-- The per-element loop over a tuple target in `_convert_variables`:
`enumerate` advances the index for every element, names produce a
`Variable`, other elements are skipped.  Indexing a too-short literal
right-hand side raises `IndexError`. -/
def tupleElemVars (value : PyExpr) : Nat → List PyExpr →
    Except CvErr (List Variable)
  | _, [] => .ok []
  | i, elt :: rest =>
    match elt with
    | .name id =>
      match elemValue value i with
      | .ok v =>
        match tupleElemVars value (i + 1) rest with
        | .ok vs => .ok (Variable.mk id none v :: vs)
        | .error e => .error e
      | .error e => .error e
    | _ => tupleElemVars value (i + 1) rest

/-- The loop over assignment targets in `_convert_variables`: `Name`
targets record the full right-hand text, `Tuple` targets unpack
element-wise, anything else (attributes, subscripts, and also `List`
targets, which the source does not test for) is ignored. -/
def targetVars (t : Option String) (value : PyExpr) :
    List PyExpr → Except CvErr (List Variable)
  | [] => .ok []
  | target :: rest =>
    let head? : Except CvErr (List Variable) :=
      match target with
      | .name id => .ok [Variable.mk id t (unparse value)]
      | .tupleE elts => tupleElemVars value 0 elts
      | _ => .ok []
    match head? with
    | .ok vs =>
      match targetVars t value rest with
      | .ok vs' => .ok (vs ++ vs')
      | .error e => .error e
    | .error e => .error e

/-- `_convert_variables` from static.py, over the targets, optional value
and optional annotation of an `Assign`/`AnnAssign` node. -/
def convert_variables (targets : List PyExpr) (value : Option PyExpr)
    (anno : Option PyExpr) : Except CvErr (List Variable) :=
  match value with
  | none => .ok []
  | some value => targetVars (anno.map unparse) value targets

/-- `_convert_function` from static.py; `is_async` embeds
`isinstance(func, ast.AsyncFunctionDef)`. -/
def convert_function (name : String) (args : PyArgs)
    (decorator_list : List PyExpr) (returns : Option PyExpr)
    (is_async : Bool) : Function :=
  Function.mk name (convert_arguments args) (returns.map unparse)
    (decorator_list.map unparse) is_async

/-- Tuple-target elements of `_convert_class_fields`: only
`self.<attr>` elements are collected. -/
def classFieldElems (value : PyExpr) : Nat → List PyExpr →
    Except CvErr (List Variable)
  | _, [] => .ok []
  | i, elt :: rest =>
    match elt with
    | .attr (.name "self") attrName =>
      match elemValue value i with
      | .ok v =>
        match classFieldElems value (i + 1) rest with
        | .ok vs => .ok (Variable.mk attrName none v :: vs)
        | .error e => .error e
      | .error e => .error e
    | _ => classFieldElems value (i + 1) rest

/-- The target loop of `_convert_class_fields`. -/
def classFieldTargets (t : Option String) (value : PyExpr) :
    List PyExpr → Except CvErr (List Variable)
  | [] => .ok []
  | target :: rest =>
    let head? : Except CvErr (List Variable) :=
      match target with
      | .attr (.name "self") attrName =>
        .ok [Variable.mk attrName t (unparse value)]
      | .tupleE elts => classFieldElems value 0 elts
      | _ => .ok []
    match head? with
    | .ok vs =>
      match classFieldTargets t value rest with
      | .ok vs' => .ok (vs ++ vs')
      | .error e => .error e
    | .error e => .error e

/-- `_convert_class_fields` from static.py. -/
def convert_class_fields (targets : List PyExpr) (value : Option PyExpr)
    (anno : Option PyExpr) : Except CvErr (List Variable) :=
  match value with
  | none => .ok []
  | some value => classFieldTargets (anno.map unparse) value targets

/-- Immediate child statements of a statement, as traversed by
`ast.walk` / `generic_visit` (only statement children can contribute
further statements; expression children contain no statements). -/
def stmtChildren : PyStmt → List PyStmt
  | .funcDef _ _ body _ _ => body
  | .asyncFuncDef _ _ body _ _ => body
  | .classDef _ _ body _ => body
  | .block body => body
  | _ => []

mutual
/-- Number of statement nodes in a statement subtree (used as a recursion
measure and as a step bound for the `ast.walk` embedding). -/
def stmtWeight : PyStmt → Nat
  | .funcDef _ _ body _ _ => 1 + stmtsWeight body
  | .asyncFuncDef _ _ body _ _ => 1 + stmtsWeight body
  | .classDef _ _ body _ => 1 + stmtsWeight body
  | .block body => 1 + stmtsWeight body
  | _ => 1

/-- Total statement-node count of a statement list. -/
def stmtsWeight : List PyStmt → Nat
  | [] => 0
  | s :: rest => stmtWeight s + stmtsWeight rest
end

theorem stmtWeight_pos (s : PyStmt) : 1 ≤ stmtWeight s := by
  cases s <;> simp [stmtWeight]

theorem stmtChildren_weight (s : PyStmt) :
    stmtsWeight (stmtChildren s) + 1 ≤ stmtWeight s := by
  cases s <;> simp [stmtWeight, stmtChildren, stmtsWeight] <;> omega

/-- `ast.walk` (breadth-first over all descendants, the starting nodes
included), restricted to statements; the `Nat` budget is a step bound that
any caller instantiates with `sizeOf` of the queue, which always
suffices. -/
def walkStmts : Nat → List PyStmt → List PyStmt
  | 0, _ => []
  | _ + 1, [] => []
  | n + 1, s :: queue => s :: walkStmts n (queue ++ stmtChildren s)

/-- Assignment statements among all descendants of a statement, in
`ast.walk` order, as scanned by `_convert_class` over `__init__`. -/
def bodyAssigns (s : PyStmt) : List PyStmt :=
  (walkStmts (stmtWeight s) [s]).filter fun st =>
    match st with
    | .assign _ _ => true
    | .annAssign _ _ _ => true
    | _ => false

/-- The `_convert_class_fields` harvest over the walked `__init__` body. -/
def initFieldsLoop : List PyStmt → Except CvErr (List Variable)
  | [] => .ok []
  | s :: rest =>
    let head? : Except CvErr (List Variable) :=
      match s with
      | .assign targets value => convert_class_fields targets (some value) none
      | .annAssign target anno value =>
        convert_class_fields [target] value (some anno)
      | _ => .ok []
    match head? with
    | .ok vs =>
      match initFieldsLoop rest with
      | .ok vs' => .ok (vs ++ vs')
      | .error e => .error e
    | .error e => .error e

mutual
/-- `_convert_class` from static.py.  Only plain `FunctionDef` nodes count
as methods (async methods are missed just as in the visitor); instance
fields come from `self.…` assignments anywhere under `__init__`; static
fields from direct class-body assignments; nested classes recurse. -/
def convert_class (name : String) (bases : List PyExpr)
    (body : List PyStmt) (decorator_list : List PyExpr) :
    Except CvErr Class :=
  match classBodyLoop body with
  | .ok (methods, fields, static_fields, classes) =>
    .ok (Class.mk name (bases.map unparse) fields static_fields methods
      classes (decorator_list.map unparse))
  | .error e => .error e
termination_by (stmtsWeight body, 1)
decreasing_by
  apply Prod.Lex.right
  omega

/-- The loop over the class body inside `_convert_class`, accumulating
`(methods, fields, static_fields, classes)`. -/
def classBodyLoop : List PyStmt →
    Except CvErr (List Function × List Variable × List Variable × List Class)
  | [] => .ok ([], [], [], [])
  | s :: rest =>
    match classBodyLoop rest with
    | .error e => .error e
    | .ok (methods, fields, static_fields, classes) =>
      match s with
      | .funcDef fname fargs _fbody fdecos freturns =>
        let m := convert_function fname fargs fdecos freturns false
        if fname = "__init__" then
          match initFieldsLoop (bodyAssigns s) with
          | .ok fs => .ok (m :: methods, fs ++ fields, static_fields, classes)
          | .error e => .error e
        else
          .ok (m :: methods, fields, static_fields, classes)
      | .assign targets value =>
        match convert_variables targets (some value) none with
        | .ok vs => .ok (methods, fields, vs ++ static_fields, classes)
        | .error e => .error e
      | .annAssign target anno value =>
        match convert_variables [target] value (some anno) with
        | .ok vs => .ok (methods, fields, vs ++ static_fields, classes)
        | .error e => .error e
      | .classDef cname cbases cbody cdecos =>
        match convert_class cname cbases cbody cdecos with
        | .ok c => .ok (methods, fields, static_fields, c :: classes)
        | .error e => .error e
      | _ => .ok (methods, fields, static_fields, classes)
termination_by l => (stmtsWeight l, 0)
decreasing_by
  all_goals apply Prod.Lex.left
  all_goals simp [stmtsWeight, stmtWeight]
  all_goals try omega
  all_goals (have h := stmtWeight_pos s; omega)
end

/-- `_SourceVisitor.visit` / `get_api_entities` from static.py over the
statements of one module.  `ast.NodeVisitor` dispatches on the exact node
class: `FunctionDef`, `ClassDef`, `Assign` and `AnnAssign` have handlers
(which do not recurse further); every other node falls back to
`generic_visit`, which visits its children — in particular an
`AsyncFunctionDef` has no handler, so nothing is emitted for it and the
statements of its own body are visited as if they were top-level. -/
def visitStmts : List PyStmt → Except CvErr (List Ent)
  | [] => .ok []
  | s :: rest =>
    let head? : Except CvErr (List Ent) :=
      match s with
      | .funcDef name args _ decos returns =>
        .ok [.func (convert_function name args decos returns false)]
      | .classDef name bases body decos =>
        match convert_class name bases body decos with
        | .ok c => .ok [.cls c]
        | .error e => .error e
      | .assign targets value =>
        match convert_variables targets (some value) none with
        | .ok vs => .ok (vs.map Ent.var)
        | .error e => .error e
      | .annAssign target anno value =>
        match convert_variables [target] value (some anno) with
        | .ok vs => .ok (vs.map Ent.var)
        | .error e => .error e
      | .asyncFuncDef _ _ body _ _ => visitStmts body
      | .block body => visitStmts body
      | _ => .ok []
    match head? with
    | .ok es =>
      match visitStmts rest with
      | .ok es' => .ok (es ++ es')
      | .error e => .error e
    | .error e => .error e
termination_by l => stmtsWeight l
decreasing_by
  all_goals simp [stmtsWeight, stmtWeight]
  all_goals try omega
  all_goals (have h := stmtWeight_pos s; omega)

/-- `get_api_entities` from static.py. -/
def get_api_entities (module : List PyStmt) : Except CvErr (List Ent) :=
  visitStmts module

/-! ## Alias resolver (py4a/api/static.py, `_resolve_import_from`)

Before resolution a package's `entities` attribute is the raw list built by
`_get_apis_from_source`: converted entities interleaved with the module's
`ast.Import`/`ast.ImportFrom` nodes. -/

/-- One element of the raw entity list. -/
inductive RawEnt where
  | ent (e : Ent)
  | imp (names : List (String × Option String))
  | impFrom (module : Option String) (names : List (String × Option String))
      (level : Nat)

/-- A package tree before alias resolution: name, children keyed by name,
raw entity list. -/
inductive RawPkg where
  | mk (name : String) (children : List (String × RawPkg))
      (entities : List RawEnt)

/-- Resolution-time Python errors: evaluating `package.parent.full_name`
with no parent raises `AttributeError`; `None + "." + name` (an absolute
`ImportFrom` with no module) raises `TypeError`. -/
inductive RiErr where
  | attrError
  | typeError
deriving DecidableEq, Repr

/-- `full_module_name` computation inside `_resolve_import_from`;
`parentFull` is `package.parent.full_name` when the parent exists.  For
`level > 1` the Python slice `[:-level+1]` keeps
`len - (level - 1)` leading segments (none when the level exceeds the
depth), after which the explicit module suffix, if any, is appended. -/
def full_module_name (parentFull : Option String) (module : Option String)
    (level : Nat) : Except RiErr String :=
  if level = 0 then
    match module with
    | some m => .ok m
    | none => .error .typeError
  else
    match parentFull with
    | none => .error .attrError
    | some pf =>
      if level = 1 then
        .ok (pf ++ (match module with | some m => "." ++ m | none => ""))
      else
        let segs := pySplitDot pf
        let kept := segs.take (segs.length - (level - 1))
        .ok (String.intercalate "."
          (kept ++ (match module with | some m => [m] | none => [])))

/-- The import-processing loop of `_resolve_import_from`: walks the raw
entity list in order, turning `import` names into `Alias` entities and
accumulating the wildcard targets of `from … import *` records. -/
def importAliases (parentFull : Option String) :
    List RawEnt → Except RiErr (List Ent × List String)
  | [] => .ok ([], [])
  | .ent _ :: rest => importAliases parentFull rest
  | .imp names :: rest =>
    match importAliases parentFull rest with
    | .ok (aliases, wilds) =>
      .ok ((names.map fun (n, asn) => Ent.alias (asn.getD n) n) ++ aliases,
        wilds)
    | .error e => .error e
  | .impFrom module names level :: rest =>
    match full_module_name parentFull module level with
    | .error e => .error e
    | .ok fmn =>
      let stmtAliases := names.filterMap fun (n, asn) =>
        if n = "*" then none
        else some (Ent.alias (asn.getD n) (fmn ++ "." ++ n))
      let stmtWilds := names.filterMap fun (n, _) =>
        if n = "*" then some (fmn ++ "." ++ "*") else none
      match importAliases parentFull rest with
      | .ok (aliases, wilds) =>
        .ok (stmtAliases ++ aliases, stmtWilds ++ wilds)
      | .error e => .error e

/-- The final dictionary build of `_resolve_import_from`:
`package.entities[e.name] = e` only when the name is not yet present, so
the earliest entity with a given name wins. -/
def dedupFirst (es : List Ent) : List (String × Ent) :=
  es.foldl (fun acc e =>
    if memA acc (nameOf e) then acc else acc ++ [(nameOf e, e)]) []

/-- The `entities` map of a resolved (`pkg`) entity. -/
def entitiesOf : Ent → List (String × Ent)
  | .pkg _ _ entities => entities
  | _ => []

/-- The `children` map of a resolved (`pkg`) entity. -/
def childrenOf : Ent → List (String × Ent)
  | .pkg _ children _ => children
  | _ => []

mutual
/-- `_resolve_import_from` from static.py: children are resolved first
(post-order); the raw entity list is rebuilt as non-import entities in
declaration order, then import-derived aliases, then the package's single
accumulated `WildcardAlias` (if any); the list becomes a first-come
dictionary; finally, if an `__init__` child exists, a copy of its resolved
entities replaces the package's own entities wholesale — the child itself
stays in the children map (nothing deletes it). -/
def resolve_import_from : RawPkg → Option String → Except RiErr Ent
  | .mk name children raw, parentFull =>
    let myFull :=
      match parentFull with
      | none => name
      | some pf => pf ++ "." ++ name
    match resolveChildren children myFull with
    | .error e => .error e
    | .ok children' =>
      match importAliases parentFull raw with
      | .error e => .error e
      | .ok (aliases, wilds) =>
        let base := raw.filterMap fun r =>
          match r with
          | .ent e => some e
          | _ => none
        let newEntities :=
          base ++ aliases ++
            (if wilds.length > 0 then [Ent.wildcard "*" wilds] else [])
        let entities1 := dedupFirst newEntities
        let entities2 :=
          match lookupA children' "__init__" with
          | some c => entitiesOf c
          | none => entities1
        .ok (.pkg name children' entities2)

/-- Post-order resolution of the children map. -/
def resolveChildren : List (String × RawPkg) → String →
    Except RiErr (List (String × Ent))
  | [], _ => .ok []
  | (n, c) :: rest, myFull =>
    match resolve_import_from c (some myFull) with
    | .error e => .error e
    | .ok c' =>
      match resolveChildren rest myFull with
      | .ok r => .ok ((n, c') :: r)
      | .error e => .error e
end

/-! ## Fixtures used by several claims -/

/-- Plain parameter `a`. -/
def argA : Argument := ⟨"a", none, none, false, false, false, false⟩
/-- Plain parameter `b`. -/
def argB : Argument := ⟨"b", none, none, false, false, false, false⟩
/-- Parameter `b=1`. -/
def argBdef : Argument := ⟨"b", none, some "1", false, false, false, false⟩
/-- Parameter `c=1`. -/
def argCdef : Argument := ⟨"c", none, some "1", false, false, false, false⟩
/-- `def f(a, b, c=1)`. -/
def fABC : Function := ⟨"f", [argA, argB, argCdef], none, [], false⟩
/-- `def f()`. -/
def fEmpty : Function := ⟨"f", [], none, [], false⟩
/-- Old version `def f(a, b=1)`. -/
def fOld : Function := ⟨"f", [argA, argBdef], none, [], false⟩
/-- New version `def f(a, b)`. -/
def fNew : Function := ⟨"f", [argA, argB], none, [], false⟩

/-! ## Claim C4 -/

/-- C4: matching the call shape `f(*, *, a=*)` (two positional arguments
plus keyword `a`) against `def f(a, b, c=1)` is a mismatch: the two
positional arguments fill `a` and `b`, and the keyword `a` then names a
parameter already filled positionally while the function accepts no
variadic-keyword parameter. -/
theorem claim_C4 :
    Call.matchSig (Call.mk "f" 2 ["a"] false false) fABC false =
      (false, "a is not allowed as keyword argument") := by decide

/-! ## Claim C5 -/

/-- C5: matching the call shape `f(**)` (only a variadic-keyword spread)
against `def f(a, b, c=1)` returns a match — the unfilled required
parameters are excused by the spread — and against `def f()` matches
trivially. -/
theorem claim_C5 :
    Call.matchSig (Call.mk "f" 0 [] false true) fABC false = (true, "") ∧
    Call.matchSig (Call.mk "f" 0 [] false true) fEmpty false = (true, "") := by
  decide

/-! ## Claim C8 -/

/-- C8: the signature matcher is total — every call/signature/receiver-flag
triple yields exactly one outcome, a boolean verdict paired with a message;
the embedding is a total function into `Bool × String` (no exceptional
path exists, unlike the `Except`-valued embeddings of the genuinely
fallible operations in this development). -/
theorem claim_C8 (c : Call) (func : Function) (class_func : Bool) :
    ∃! r : Bool × String, Call.matchSig c func class_func = r :=
  ⟨Call.matchSig c func class_func, rfl, fun _ h => h.symm⟩

/-! ## Claim C10 -/

theorem getArgLoop_not_found (args : List Argument) (s : String)
    (h : ∀ a ∈ args, a.name ≠ s) : getArgLoop args s = .error .typeError := by
  induction args with
  | nil => rfl
  | cons a rest ih =>
    have ha : a.name ≠ s := h a (List.mem_cons_self a rest)
    simp only [getArgLoop, if_neg ha]
    exact ih fun x hx => h x (List.mem_cons_of_mem a hx)

theorem getArgLoop_found (args : List Argument) (s : String) (a : Argument)
    (h : args.find? (fun x => x.name == s) = some a) :
    getArgLoop args s = .ok a := by
  induction args with
  | nil => simp [List.find?] at h
  | cons b rest ih =>
    by_cases hb : b.name = s
    · rw [List.find?_cons_of_pos _ (by simpa using hb)] at h
      cases h
      simp [getArgLoop, hb]
    · rw [List.find?_cons_of_neg _ (by simpa using hb)] at h
      simp only [getArgLoop, if_neg hb]
      exact ih h

/-- C10: `Function.get_arg` never returns `None` despite its `Optional`
annotation — when the requested name matches no argument, the dead-end
`raise None` statement raises a `TypeError`; when the name does match, the
first argument bearing it is returned. -/
theorem claim_C10 (f : Function) (s : String) :
    ((∀ a ∈ f.args, a.name ≠ s) → f.get_arg s = .error .typeError) ∧
    (∀ a : Argument, f.args.find? (fun x => x.name == s) = some a →
      f.get_arg s = .ok a) :=
  ⟨fun h => getArgLoop_not_found f.args s h,
   fun a h => getArgLoop_found f.args s a h⟩

/-- Function `def g(x, y, x)` (with a duplicated `x` whose second copy is
annotated) used to witness first-match behaviour. -/
def demoG : Function :=
  ⟨"g", [⟨"x", none, none, false, false, false, false⟩,
        ⟨"y", none, none, false, false, false, false⟩,
        ⟨"x", some "int", none, false, false, false, false⟩], none, [], false⟩

/-- C10 witness: at `demoG`, a missing name raises the `TypeError` and a
present (duplicated) name yields its first occurrence. -/
theorem claim_C10_witness :
    Function.get_arg demoG "z" = .error .typeError ∧
    Function.get_arg demoG "x" =
      .ok ⟨"x", none, none, false, false, false, false⟩ :=
  ⟨(claim_C10 demoG "z").1 (by decide),
   (claim_C10 demoG "x").2 ⟨"x", none, none, false, false, false, false⟩
     (by rfl)⟩

/-! ## Claim C1 -/

/-- C1: diffing old `def f(a, b=1)` against new `def f(a, b)` emits exactly
one diff for `b`, but its kind is `ParamDefValAdd` ("Parameter Default
Value Addition") with `old_value = "1"`, not the Default-Value-Removed kind
the specification requires: `diff_function` has the Addition/Removal labels
swapped for default values (its own `Diff.__str__` would render this very
record as "default value `None` added to `b`"). -/
theorem claim_C1 :
    diff_function fOld fNew "f" =
      [Diff.mk .ParamDefValAdd "f" (some "b") (some "1") none] ∧
    ∀ d ∈ diff_function fOld fNew "f",
      d.diff_type ≠ DiffType.ParamDefValRem := by decide

/-! ## Claim C7 -/

/-- C7 counterexample: an assignment whose target is a *list* of names,
`[a, b] = c`, produces no `Variable` at all — `_convert_variables` tests
only for `ast.Tuple` targets — contradicting the claim that a list target
produces one `Variable` per element. -/
theorem claim_C7_cex :
    convert_variables [PyExpr.listE [.name "a", .name "b"]]
        (some (.name "c")) none = .ok [] ∧
    convert_variables [PyExpr.listE [.name "a", .name "b"]]
        (some (.name "c")) none ≠
      .ok [⟨"a", none, "c[0]"⟩, ⟨"b", none, "c[1]"⟩] := by
  constructor
  · rfl
  · intro h
    simp [convert_variables, targetVars] at h

/-- The recorded value of the `i`-th element of a tuple-of-names target:
the matching element text when the right-hand side is a tuple/list
literal, otherwise the synthetic indexed access `rhs[i]`. -/
def elemText (value : PyExpr) (i : Nat) : String :=
  match elemValue value i with
  | .ok v => v
  | .error _ => ""

/-- The expected per-element `Variable` list for a tuple-of-names target
starting at index `i`. -/
def tupleVarsExpected (value : PyExpr) : Nat → List String → List Variable
  | _, [] => []
  | i, n :: ns => ⟨n, none, elemText value i⟩ :: tupleVarsExpected value (i + 1) ns

theorem elemValue_ok (value : PyExpr) (i : Nat)
    (hlen : ∀ vs, (value = .tupleE vs ∨ value = .listE vs) →
      i < vs.length) :
    elemValue value i = .ok (elemText value i) := by
  cases value with
  | tupleE vs =>
    have hi := hlen vs (Or.inl rfl)
    obtain ⟨v, hv⟩ : ∃ v, vs[i]? = some v :=
      ⟨vs.get ⟨i, hi⟩, by simp [List.getElem?_eq_getElem hi]⟩
    simp [elemValue, elemText, hv]
  | listE vs =>
    have hi := hlen vs (Or.inr rfl)
    obtain ⟨v, hv⟩ : ∃ v, vs[i]? = some v :=
      ⟨vs.get ⟨i, hi⟩, by simp [List.getElem?_eq_getElem hi]⟩
    simp [elemValue, elemText, hv]
  | name id => rfl
  | attr v a => rfl
  | const t => rfl

theorem tupleElemVars_names (value : PyExpr) (ns : List String) :
    ∀ i : Nat,
      (∀ vs, (value = .tupleE vs ∨ value = .listE vs) →
        i + ns.length ≤ vs.length) →
      tupleElemVars value i (ns.map PyExpr.name) =
        .ok (tupleVarsExpected value i ns) := by
  induction ns with
  | nil => intro i _; rfl
  | cons n rest ih =>
    intro i hlen
    have hrest : ∀ vs, (value = .tupleE vs ∨ value = .listE vs) →
        (i + 1) + rest.length ≤ vs.length := by
      intro vs hv
      have := hlen vs hv
      simp only [List.length_cons] at this
      omega
    have hv : elemValue value i = .ok (elemText value i) := by
      apply elemValue_ok
      intro vs hvs
      have := hlen vs hvs
      simp only [List.length_cons] at this
      omega
    simp only [List.map_cons, tupleElemVars, tupleVarsExpected, hv,
      ih (i + 1) hrest]

/-- C7 (amended): for an assignment whose target is a *tuple* of names,
variable conversion produces one `Variable` per element — the
corresponding right-hand element text when the right-hand side is a
tuple/list literal with enough elements, the synthetic `rhs[i]` expression
otherwise; assignments whose target is a list of names are ignored and
produce no `Variable` (shown by the counterexample). -/
theorem claim_C7 (ns : List String) (value : PyExpr) (t : Option PyExpr)
    (hlen : ∀ vs, (value = .tupleE vs ∨ value = .listE vs) →
      ns.length ≤ vs.length) :
    convert_variables [.tupleE (ns.map PyExpr.name)] (some value) t =
      .ok (tupleVarsExpected value 0 ns) := by
  simp only [convert_variables, targetVars]
  rw [tupleElemVars_names value ns 0 (by simpa using hlen)]
  simp [targetVars]

/-- C7 witness: concrete tuple-of-names targets, once against a tuple
literal right-hand side and once against an opaque right-hand side. -/
theorem claim_C7_witness :
    convert_variables [.tupleE [.name "a", .name "b"]]
        (some (.tupleE [.const "1", .const "2"])) none =
      .ok [⟨"a", none, "1"⟩, ⟨"b", none, "2"⟩] ∧
    convert_variables [.tupleE [.name "a", .name "b"]]
        (some (.name "c")) none =
      .ok [⟨"a", none, "c[0]"⟩, ⟨"b", none, "c[1]"⟩] := by
  constructor
  · have h := claim_C7 ["a", "b"] (.tupleE [.const "1", .const "2"]) none
      (by
        rintro vs (h | h)
        · cases h; decide
        · cases h)
    simpa [tupleVarsExpected, elemText, unparse] using h
  · have h := claim_C7 ["a", "b"] (.name "c") none
      (by rintro vs (h | h) <;> cases h)
    simpa [tupleVarsExpected, elemText, unparse] using h

/-! ## Claim C9 -/

theorem lookupA_updateA_self {α : Type} (l : List (String × α)) (k : String)
    (v : α) (h : lookupA l k = some v) : updateA l k v = l := by
  induction l with
  | nil => simp [lookupA] at h
  | cons p rest ih =>
    obtain ⟨k0, v0⟩ := p
    by_cases hk : k0 = k
    · subst hk
      have h2 : v0 = v := by simpa [lookupA] using h
      subst h2
      simp [updateA]
    · simp only [lookupA, if_neg hk] at h
      simp [updateA, hk, ih h]

theorem getitemWalk_snd (key : String) : ∀ (segs : List String) (res : Ent),
    (getitemWalk key res segs).2 = res := by
  intro segs
  induction segs with
  | nil => intro res; rfl
  | cons k rest ih =>
    intro res
    cases res
    case pkg n children entities =>
      simp only [getitemWalk]
      cases hc : lookupA children k with
      | some c => simp [ih c, lookupA_updateA_self children k c hc]
      | none =>
        cases he : lookupA entities k with
        | some e => simp [ih e, lookupA_updateA_self entities k e he]
        | none =>
          cases hw : lookupA entities "*" with
          | some w =>
            by_cases hr : rest = []
            · cases w <;> simp [hr]
            · simp [hr]
          | none => simp
    all_goals rfl

/-- Package `P` whose only entity is the wildcard alias `* → Q.*`. -/
def pkgP : Ent := .pkg "P" [] [("*", .wildcard "*" ["Q.*"])]

/-- C9: reference resolution leaves the package tree unchanged — the
state-passing embedding of `__getitem__` (the sole tree-reading primitive
of `Package.get`) hands back the tree intact on every lookup, including
failing ones; in the wildcard case, resolving `P.foo` against a stored
`WildcardAlias ["Q.*"]` yields a freshly constructed value targeting
`Q.foo`, distinct from (and leaving untouched) the stored entity. -/
theorem claim_C9 :
    (∀ (root : Ent) (key : String), (root.getitemSt key).2 = root) ∧
    pkgP.getitem "P.foo" = .ok (.wildcard "foo" ["Q.foo"]) ∧
    lookupA (entitiesOf pkgP) "*" = some (.wildcard "*" ["Q.*"]) ∧
    Ent.wildcard "foo" ["Q.foo"] ≠ Ent.wildcard "*" ["Q.*"] := by
  refine ⟨?_, by rfl, by rfl, by simp⟩
  intro root key
  unfold Ent.getitemSt
  cases h : pySplitDot key with
  | nil => rfl
  | cons k0 rest =>
    by_cases hk : k0 = nameOf root
    · simp [hk, getitemWalk_snd]
    · simp [hk]

/-! ## Claim C2 -/

/-- The children map of a raw package. -/
def rawChildren : RawPkg → List (String × RawPkg)
  | .mk _ children _ => children

/-- Raw `__init__` unit defining `x = 1`. -/
def rawInitPkg : RawPkg := .mk "__init__" [] [.ent (.var ⟨"x", none, "1"⟩)]
/-- Raw package `p` with an `__init__` child and its own entity `y = 2`. -/
def rawPkgDemo : RawPkg :=
  .mk "p" [("__init__", rawInitPkg)] [.ent (.var ⟨"y", none, "2"⟩)]
/-- Resolved `__init__` unit. -/
def resolvedInit : Ent := .pkg "__init__" [] [("x", .var ⟨"x", none, "1"⟩)]
/-- Resolved package `p`. -/
def resolvedDemo : Ent :=
  .pkg "p" [("__init__", resolvedInit)] [("x", .var ⟨"x", none, "1"⟩)]

/-- C2 counterexample: resolving a package with an `__init__` child does
replace the package's entities with the child's resolved entities, but the
`__init__` child is *not* removed from the children map — it remains a
navigable child, contradicting the claim's removal conjunct (there is no
deletion anywhere in `_resolve_import_from`). -/
theorem claim_C2_cex :
    resolve_import_from rawPkgDemo none = .ok resolvedDemo ∧
    lookupA (childrenOf resolvedDemo) "__init__" = some resolvedInit := by
  constructor
  · rfl
  · rfl

theorem resolveChildren_keys :
    ∀ (l : List (String × RawPkg)) (mf : String) (r : List (String × Ent)),
      resolveChildren l mf = .ok r → r.map Prod.fst = l.map Prod.fst := by
  intro l
  induction l with
  | nil =>
    intro mf r h
    simp only [resolveChildren] at h
    cases h
    rfl
  | cons p rest ih =>
    intro mf r h
    obtain ⟨n, c⟩ := p
    simp only [resolveChildren] at h
    cases hc : resolve_import_from c (some mf) with
    | error e => rw [hc] at h; cases h
    | ok c1 =>
      rw [hc] at h
      cases hr : resolveChildren rest mf with
      | error e => rw [hr] at h; cases h
      | ok r1 =>
        rw [hr] at h
        cases h
        simp [ih mf r1 hr]

/-- C2 (amended): after alias resolution, a package whose children contain
the `__init__` unit has that child's resolved entities as its own entities
(merge), but — contrary to the claim — the child is *kept*: the resolved
children map has exactly the raw children's keys, so `__init__` remains
exposed as a navigable child. -/
theorem claim_C2 (p : RawPkg) (parentFull : Option String) (r : Ent)
    (hres : resolve_import_from p parentFull = .ok r) :
    (childrenOf r).map Prod.fst = (rawChildren p).map Prod.fst ∧
    ∀ c, lookupA (childrenOf r) "__init__" = some c →
      entitiesOf r = entitiesOf c := by
  obtain ⟨name, children, raw⟩ := p
  simp only [resolve_import_from] at hres
  generalize (match parentFull with
    | none => name
    | some pf => pf ++ "." ++ name) = mf at hres
  cases hch : resolveChildren children mf with
  | error e => rw [hch] at hres; cases hres
  | ok children1 =>
    rw [hch] at hres
    cases him : importAliases parentFull raw with
    | error e => rw [him] at hres; cases hres
    | ok pair =>
      obtain ⟨aliases, wilds⟩ := pair
      rw [him] at hres
      simp only [Except.ok.injEq] at hres
      subst hres
      constructor
      · simpa [childrenOf, rawChildren] using
          resolveChildren_keys children _ children1 hch
      · intro c hc
        simp only [childrenOf] at hc
        simp [entitiesOf, hc]

/-- C2 witness: the amended claim applied to the concrete demo package. -/
theorem claim_C2_witness :
    (childrenOf resolvedDemo).map Prod.fst =
      (rawChildren rawPkgDemo).map Prod.fst ∧
    ∀ c, lookupA (childrenOf resolvedDemo) "__init__" = some c →
      entitiesOf resolvedDemo = entitiesOf c :=
  claim_C2 rawPkgDemo none resolvedDemo (by rfl)

/-! ## Claim C6 -/

/-- An empty `ast.arguments` node. -/
def noArgs : PyArgs := ⟨[], [], [], none, [], [], none⟩

/-- C6: the static extractor does *not* emit a `Function` entity for a
top-level `async def` — `_SourceVisitor` defines no
`visit_AsyncFunctionDef`, so `generic_visit` skips the definition and
instead recurses into its body (leaking any nested definition to the top
level) — while a plain `def` yields one `Function` whose async flag is
necessarily `false`.  This contradicts the claim that one `Function` is
emitted per top-level function definition, async definitions included,
with the flag set exactly for them. -/
theorem claim_C6 :
    get_api_entities
        [PyStmt.asyncFuncDef "f" noArgs
          [.exprStmt (.const "await other_func()")] [] none] = .ok [] ∧
    get_api_entities
        [PyStmt.asyncFuncDef "f" noArgs
          [.funcDef "g" noArgs [] [] none] [] none] =
      .ok [.func ⟨"g", [], none, [], false⟩] ∧
    get_api_entities [PyStmt.funcDef "f" noArgs [] [] none] =
      .ok [.func ⟨"f", [], none, [], false⟩] := by
  refine ⟨?_, ?_, ?_⟩ <;>
    simp [get_api_entities, visitStmts, convert_function, convert_arguments,
      noArgs, List.enum]

/-! ## Claim C3

Two fixtures: the cyclic alias pair `M.A → M.B → M.A`, and a package whose
wildcard alias carries an embedded star (`P.*x`), on which `Package.get`
recurses forever (every synthesized name grows by one character, so the
visited-set check never fires). -/

/-- Package `M` with the cyclic alias pair `A → M.B`, `B → M.A`. -/
def cyclicM : Ent :=
  .pkg "M" [] [("A", .alias "A" "M.B"), ("B", .alias "B" "M.A")]

/-- Resolution of `key` in `p` exhausts every recursion budget — the
fuel-free original would recurse forever. -/
def divergesAt (p : Ent) (key : String) (tops : List (String × Ent)) : Prop :=
  ∀ fuel, Ent.get fuel p key tops [] = .error .fuelOut

/-- Package `P` whose wildcard alias target `P.*x` has the star embedded
inside the final segment. -/
def starP : Ent := .pkg "P" [] [("*", .wildcard "*" ["P.*x"])]

/-- The key reached after `n` wildcard expansions of `P.y` in `starP`:
`P.y`, `P.yx`, `P.yxx`, … -/
def starKey (n : Nat) : String :=
  String.mk ('P' :: '.' :: 'y' :: List.replicate n 'x')

/-- The final segment of `starKey n`. -/
def starSeg (n : Nat) : String :=
  String.mk ('y' :: List.replicate n 'x')

/-- The `prev_aliases` accumulated after `n` expansion steps. -/
def starPrev : Nat → List String
  | 0 => []
  | n + 1 => starPrev n ++ [starKey (n + 1)]

theorem splitChar_noSep (sep : Char) :
    ∀ l : List Char, (∀ c ∈ l, c ≠ sep) → splitChar sep l = [l] := by
  intro l
  induction l with
  | nil => intro _; rfl
  | cons x xs ih =>
    intro h
    have hx : x ≠ sep := h x (List.mem_cons_self x xs)
    have hxs := ih fun c hc => h c (List.mem_cons_of_mem x hc)
    simp [splitChar, hxs, hx]

theorem rep_noDot (n : Nat) : ∀ c ∈ List.replicate n 'x', c ≠ '.' := by
  intro c hc
  rw [List.eq_of_mem_replicate hc]
  decide

theorem pySplitDot_starKey (n : Nat) :
    pySplitDot (starKey n) = ["P", starSeg n] := by
  have h1 : splitChar '.' (List.replicate n 'x') = [List.replicate n 'x'] :=
    splitChar_noSep '.' _ (rep_noDot n)
  simp [pySplitDot, starKey, starSeg, splitChar, h1]

theorem star_ne_starSeg (n : Nat) : ("*" : String) ≠ starSeg n := by
  intro h
  have hd := congrArg String.data h
  simp [starSeg] at hd

theorem starKey_data_length (n : Nat) :
    (starKey n).data.length = n + 3 := by
  simp [starKey]

theorem mem_starPrev {s : String} :
    ∀ n, s ∈ starPrev n → ∃ i, i < n ∧ s = starKey (i + 1) := by
  intro n
  induction n with
  | zero => intro h; simp [starPrev] at h
  | succ n ih =>
    intro h
    rcases List.mem_append.1 h with h | h
    · obtain ⟨i, hi, hs⟩ := ih h
      exact ⟨i, by omega, hs⟩
    · simp only [List.mem_singleton] at h
      exact ⟨n, by omega, h⟩

theorem starKey_not_mem_starPrev (n : Nat) :
    starKey (n + 1) ∉ starPrev n := by
  intro h
  obtain ⟨i, hi, hs⟩ := mem_starPrev n h
  have := congrArg (fun s => s.data.length) hs
  simp only [starKey_data_length] at this
  omega

theorem splitHead_starKey (m : Nat) : splitHead '.' (starKey m) = "P" := by
  have h1 : splitChar '.' (List.replicate m 'x') = [List.replicate m 'x'] :=
    splitChar_noSep '.' _ (rep_noDot m)
  simp [splitHead, starKey, splitChar, h1]

theorem pyReplace_star_self (n : Nat) :
    pyReplace "*" "*" (starSeg n) = starSeg n := by
  simp [pyReplace, replaceList, replaceListAux, List.isPrefixOf, starSeg]

theorem pyReplace_star_target (n : Nat) :
    pyReplace "P.*x" "*" (starSeg n) = starKey (n + 1) := by
  simp only [pyReplace, replaceList, replaceListAux, starSeg, starKey]
  simp [List.isPrefixOf, List.replicate_succ']

theorem getitem_starKey (n : Nat) :
    starP.getitem (starKey n) =
      .ok (.wildcard (starSeg n) [starKey (n + 1)]) := by
  unfold Ent.getitem Ent.getitemSt
  rw [pySplitDot_starKey]
  simp only [nameOf, starP, getitemWalk, lookupA,
    if_neg (star_ne_starSeg n), if_pos rfl]
  simp [pyReplace_star_self, pyReplace_star_target]

theorem starP_fuelOut : ∀ fuel n,
    Ent.get fuel starP (starKey n) [("P", starP)] (starPrev n) =
      .error .fuelOut := by
  intro fuel
  induction fuel with
  | zero => intro n; rfl
  | succ fuel ih =>
    intro n
    rw [Ent.get, getitem_starKey n]
    simp only [tryAliases, if_neg (starKey_not_mem_starPrev n),
      splitHead_starKey, nameOf, starP, if_pos rfl]
    simp only [if_true]
    rw [show Ent.pkg "P" [] [("*", Ent.wildcard "*" ["P.*x"])] = starP
      from rfl]
    rw [show starPrev n ++ [starKey (n + 1)] = starPrev (n + 1) from rfl,
      ih (n + 1)]

/-- C3 counterexample: on the cyclic alias pair, `Package.get` does fail
with a `KeyError`, but not the cyclic-reference one — the cyclic-reference
`KeyError` raised two levels down is caught by the alias loop's
`except KeyError: continue` and replaced by the generic cannot-be-resolved
failure; moreover `Package.get` does *not* terminate on every finite
federation — on a package whose wildcard target embeds the star inside a
segment (`P.*x`), resolving `P.y` synthesizes the ever-growing names
`P.yx`, `P.yxx`, … and exhausts every recursion budget. -/
theorem claim_C3_cex :
    Ent.get 10 cyclicM "M.A" [("M", cyclicM)] [] =
      .error (.keyError "M.A cannot be resolved in this package") ∧
    Ent.get 10 cyclicM "M.A" [("M", cyclicM)] [] ≠
      .error (.keyError "M.A is a cyclic reference") ∧
    divergesAt starP "P.y" [("P", starP)] := by
  refine ⟨by rfl, ?_, ?_⟩
  · intro h
    have h1 : Ent.get 10 cyclicM "M.A" [("M", cyclicM)] [] =
        .error (.keyError "M.A cannot be resolved in this package") := rfl
    rw [h1] at h
    injection h with h2
    injection h2 with h3
    exact absurd h3 (by decide)
  · intro fuel
    have h0 : ("P.y" : String) = starKey 0 := rfl
    have h1 : ([] : List String) = starPrev 0 := rfl
    rw [h0, h1]
    exact starP_fuelOut fuel 0

/-! ### Termination of `Package.get` on star-free federations

Every alias string passed to a recursive `get` call is, absent wildcard
synthesis, one of the finitely many alias-target strings stored in the
federation; since `prev_aliases` grows by one such string per recursion
level and revisits are rejected, a recursion budget exceeding the number
of distinct stored targets can never be exhausted. -/

mutual
/-- All alias/wildcard target strings stored anywhere in an entity. -/
def aliasTargets : Ent → List String
  | .alias _ full => [full]
  | .wildcard _ fulls => fulls
  | .pkg _ children entities =>
    aliasTargetsL children ++ aliasTargetsL entities
  | _ => []

/-- All target strings stored in an entity map. -/
def aliasTargetsL : List (String × Ent) → List String
  | [] => []
  | (_, e) :: rest => aliasTargets e ++ aliasTargetsL rest
end

mutual
/-- No package reachable inside the entity exposes a `"*"`-keyed entity
(so `__getitem__` never synthesizes a fresh wildcard name). -/
def noStar : Ent → Bool
  | .pkg _ children entities =>
    !(memA entities "*") && noStarL children && noStarL entities
  | _ => true

/-- `noStar` over an entity map. -/
def noStarL : List (String × Ent) → Bool
  | [] => true
  | (_, e) :: rest => noStar e && noStarL rest
end

theorem lookupA_mem {α : Type} :
    ∀ (l : List (String × α)) (k : String) (v : α),
      lookupA l k = some v → (k, v) ∈ l := by
  intro l
  induction l with
  | nil => intro k v h; simp [lookupA] at h
  | cons p rest ih =>
    intro k v h
    obtain ⟨k0, v0⟩ := p
    by_cases hk : k0 = k
    · subst hk
      have h2 : v0 = v := by simpa [lookupA] using h
      subst h2
      exact List.mem_cons_self _ _
    · simp only [lookupA, if_neg hk] at h
      exact List.mem_cons_of_mem _ (ih k v h)

theorem mem_aliasTargetsL {k : String} {e : Ent} :
    ∀ l : List (String × Ent), (k, e) ∈ l →
      aliasTargets e ⊆ aliasTargetsL l := by
  intro l
  induction l with
  | nil => intro h; cases h
  | cons p rest ih =>
    intro h
    rcases List.mem_cons.1 h with h | h
    · cases h
      simp only [aliasTargetsL]
      exact List.subset_append_left _ _
    · simp only [aliasTargetsL]
      exact (ih h).trans (List.subset_append_right _ _)

theorem mem_noStarL {k : String} {e : Ent} :
    ∀ l : List (String × Ent), noStarL l = true → (k, e) ∈ l →
      noStar e = true := by
  intro l
  induction l with
  | nil => intro _ h; cases h
  | cons p rest ih =>
    intro hl h
    obtain ⟨k0, e0⟩ := p
    simp only [noStarL, Bool.and_eq_true] at hl
    rcases List.mem_cons.1 h with h | h
    · cases h
      exact hl.1
    · exact ih hl.2 h

theorem memA_false_lookupA {α : Type} (l : List (String × α)) (k : String)
    (h : memA l k = false) : lookupA l k = none := by
  unfold memA at h
  cases hl : lookupA l k with
  | none => rfl
  | some v => rw [hl] at h; cases h

theorem getitemWalk_ok_targets (key : String) :
    ∀ (segs : List String) (res r : Ent), noStar res = true →
      (getitemWalk key res segs).1 = .ok r →
      aliasTargets r ⊆ aliasTargets res ∧ noStar r = true := by
  intro segs
  induction segs with
  | nil =>
    intro res r hstar h
    have : res = r := by simpa [getitemWalk] using h
    subst this
    exact ⟨List.Subset.refl _, hstar⟩
  | cons k rest ih =>
    intro res r hstar h
    cases res
    case pkg n children entities =>
      have hstar2 := hstar
      simp only [noStar, Bool.and_eq_true] at hstar2
      obtain ⟨⟨hsym, hchil⟩, hents⟩ := hstar2
      simp only [getitemWalk] at h
      cases hc : lookupA children k with
      | some c =>
        rw [hc] at h
        have hmem := lookupA_mem children k c hc
        have hcstar := mem_noStarL children hchil hmem
        obtain ⟨hsub, hrstar⟩ := ih c r hcstar h
        refine ⟨hsub.trans ?_, hrstar⟩
        simp only [aliasTargets]
        exact (mem_aliasTargetsL children hmem).trans
          (List.subset_append_left _ _)
      | none =>
        rw [hc] at h
        cases he : lookupA entities k with
        | some e =>
          rw [he] at h
          have hmem := lookupA_mem entities k e he
          have hestar := mem_noStarL entities hents hmem
          obtain ⟨hsub, hrstar⟩ := ih e r hestar h
          refine ⟨hsub.trans ?_, hrstar⟩
          simp only [aliasTargets]
          exact (mem_aliasTargetsL entities hmem).trans
            (List.subset_append_right _ _)
        | none =>
          rw [he] at h
          rw [memA_false_lookupA entities "*"
            (by simpa using hsym)] at h
          cases h
    all_goals simp [getitemWalk] at h

theorem getitem_ok_targets (self : Ent) (key : String) (r : Ent)
    (hstar : noStar self = true) (h : self.getitem key = .ok r) :
    aliasTargets r ⊆ aliasTargets self ∧ noStar r = true := by
  unfold Ent.getitem Ent.getitemSt at h
  cases hs : pySplitDot key with
  | nil => rw [hs] at h; cases h
  | cons k0 rest =>
    rw [hs] at h
    dsimp only at h
    by_cases hk : k0 = nameOf self
    · rw [if_pos hk] at h
      exact getitemWalk_ok_targets key rest self r hstar h
    · rw [if_neg hk] at h
      cases h

theorem getitemWalk_ne_fuelOut (key : String) :
    ∀ (segs : List String) (res : Ent),
      (getitemWalk key res segs).1 ≠ .error .fuelOut := by
  intro segs
  induction segs with
  | nil => intro res h; simp [getitemWalk] at h
  | cons k rest ih =>
    intro res h
    cases res
    case pkg n children entities =>
      simp only [getitemWalk] at h
      cases hc : lookupA children k with
      | some c => rw [hc] at h; exact ih c h
      | none =>
        rw [hc] at h
        cases he : lookupA entities k with
        | some e => rw [he] at h; exact ih e h
        | none =>
          rw [he] at h
          dsimp only at h
          cases hw : lookupA entities "*" with
          | some w =>
            rw [hw] at h
            dsimp only at h
            by_cases hr : rest = []
            · rw [if_pos hr] at h
              cases w <;> simp at h
            · rw [if_neg hr] at h
              simp at h
          | none => rw [hw] at h; simp at h
    all_goals simp [getitemWalk] at h

theorem getitem_ne_fuelOut (self : Ent) (key : String) :
    self.getitem key ≠ .error .fuelOut := by
  unfold Ent.getitem Ent.getitemSt
  cases hs : pySplitDot key with
  | nil => simp
  | cons k0 rest =>
    dsimp only
    by_cases hk : k0 = nameOf self
    · rw [if_pos hk]
      exact getitemWalk_ne_fuelOut key rest self
    · rw [if_neg hk]
      simp

theorem nodup_length_le_dedup (l U : List String) (hnd : l.Nodup)
    (hsub : ∀ a ∈ l, a ∈ U) : l.length ≤ U.dedup.length := by
  have h1 : l.toFinset.card = l.length := List.toFinset_card_of_nodup hnd
  have h2 : l.toFinset ⊆ U.toFinset := by
    intro x hx
    exact List.mem_toFinset.2 (hsub x (List.mem_toFinset.1 hx))
  have h3 : U.toFinset.card = U.dedup.length := List.card_toFinset U
  have h4 := Finset.card_le_card h2
  omega

theorem tryAliases_no_fuelOut (tops : List (String × Ent)) (U : List String)
    (hTops : ∀ p ∈ tops, aliasTargets p.2 ⊆ U ∧ noStar p.2 = true)
    (fuel : Nat)
    (hrec : ∀ (p : Ent) (a : String) (prev2 : List String),
      noStar p = true → aliasTargets p ⊆ U →
      prev2.Nodup → (∀ x ∈ prev2, x ∈ U) →
      U.dedup.length < fuel + prev2.length →
      Ent.get fuel p a tops prev2 ≠ .error .fuelOut) :
    ∀ (as : List String) (cur : Ent) (key : String) (prev : List String),
      noStar cur = true → aliasTargets cur ⊆ U →
      prev.Nodup → (∀ x ∈ prev, x ∈ U) → (∀ a ∈ as, a ∈ U) →
      U.dedup.length < (fuel + 1) + prev.length →
      tryAliases (fun p a prev2 => Ent.get fuel p a tops prev2) cur key tops
        prev as ≠ .error .fuelOut := by
  intro as
  induction as with
  | nil =>
    intro cur key prev _ _ _ _ _ _
    simp [tryAliases]
  | cons a rest ih =>
    intro cur key prev hstar htar hnd hsub has hbound
    simp only [tryAliases]
    by_cases hmem : a ∈ prev
    · rw [if_pos hmem]
      simp
    · rw [if_neg hmem]
      have haU : a ∈ U := has a (List.mem_cons_self _ _)
      have hrestU : ∀ x ∈ rest, x ∈ U := fun x hx =>
        has x (List.mem_cons_of_mem _ hx)
      have hnd2 : (prev ++ [a]).Nodup := by
        simp [List.nodup_append, hnd, hmem]
      have hsub2 : ∀ x ∈ prev ++ [a], x ∈ U := by
        intro x hx
        rcases List.mem_append.1 hx with hx | hx
        · exact hsub x hx
        · simp only [List.mem_singleton] at hx
          subst hx
          exact haU
      have hbound2 : U.dedup.length < fuel + (prev ++ [a]).length := by
        simp only [List.length_append, List.length_singleton]
        omega
      by_cases htop : splitHead '.' a = nameOf cur
      · rw [if_pos htop]
        dsimp only
        have hne := hrec cur a (prev ++ [a]) hstar htar hnd2 hsub2 hbound2
        cases hr : Ent.get fuel cur a tops (prev ++ [a]) with
        | ok r => simp
        | error e =>
          cases e with
          | keyError m =>
            exact ih cur key prev hstar htar hnd hsub hrestU hbound
          | attrError s => simp
          | fuelOut => exact absurd hr hne
      · rw [if_neg htop]
        cases hlk : lookupA tops (splitHead '.' a) with
        | none =>
          dsimp only
          exact ih cur key prev hstar htar hnd hsub hrestU hbound
        | some p =>
          dsimp only
          have hp := hTops (splitHead '.' a, p)
            (lookupA_mem tops (splitHead '.' a) p hlk)
          have hne := hrec p a (prev ++ [a]) hp.2 hp.1 hnd2 hsub2 hbound2
          cases hr : Ent.get fuel p a tops (prev ++ [a]) with
          | ok r => simp
          | error e =>
            cases e with
            | keyError m =>
              exact ih cur key prev hstar htar hnd hsub hrestU hbound
            | attrError s => simp
            | fuelOut => exact absurd hr hne

theorem get_no_fuelOut (tops : List (String × Ent)) (U : List String)
    (hTops : ∀ p ∈ tops, aliasTargets p.2 ⊆ U ∧ noStar p.2 = true) :
    ∀ (fuel : Nat) (cur : Ent) (key : String) (prev : List String),
      noStar cur = true → aliasTargets cur ⊆ U →
      prev.Nodup → (∀ x ∈ prev, x ∈ U) →
      U.dedup.length < fuel + prev.length →
      Ent.get fuel cur key tops prev ≠ .error .fuelOut := by
  intro fuel
  induction fuel with
  | zero =>
    intro cur key prev _ _ hnd hsub hbound
    have := nodup_length_le_dedup prev U hnd hsub
    intro _
    omega
  | succ fuel ih =>
    intro cur key prev hstar htar hnd hsub hbound
    rw [Ent.get]
    cases hg : cur.getitem key with
    | error e =>
      intro hcontra
      dsimp only at hcontra
      injection hcontra with h2
      exact getitem_ne_fuelOut cur key (h2 ▸ hg)
    | ok res =>
      dsimp only
      have hres := getitem_ok_targets cur key res hstar hg
      cases res
      next f => simp
      next c => simp
      next v => simp
      next n full =>
        apply tryAliases_no_fuelOut tops U hTops fuel ih [full] cur key prev
          hstar htar hnd hsub ?_ hbound
        intro x hx
        simp only [List.mem_singleton] at hx
        subst hx
        exact htar (hres.1 (by simp [aliasTargets]))
      next n fulls =>
        apply tryAliases_no_fuelOut tops U hTops fuel ih fulls cur key prev
          hstar htar hnd hsub ?_ hbound
        intro x hx
        exact htar (hres.1 (by simpa [aliasTargets] using hx))
      next n ch en => simp

/-- C3 (amended): `Package.get`, modelled with an explicit recursion
budget, terminates on every federation in which no package exposes a
`"*"`-keyed (wildcard) entity: a budget exceeding the number of distinct
stored alias-target strings is never exhausted (the visited-alias list
grows by one stored target per level and revisits are rejected); and on
the cyclic alias pair `A → B → A`, resolving either name terminates for
every budget of at least 3 and fails with a `KeyError` — the
cannot-be-resolved failure, the internally raised cyclic-reference
`KeyError` having been swallowed by the alias loop's handler.  (Without
the wildcard restriction termination is false: see the counterexample's
diverging `P.*x` federation.) -/
theorem claim_C3 :
    (∀ (tops : List (String × Ent)) (U : List String),
      (∀ p ∈ tops, aliasTargets p.2 ⊆ U ∧ noStar p.2 = true) →
      ∀ (fuel : Nat) (cur : Ent) (key : String) (prev : List String),
        noStar cur = true → aliasTargets cur ⊆ U →
        prev.Nodup → (∀ x ∈ prev, x ∈ U) →
        U.dedup.length < fuel + prev.length →
        Ent.get fuel cur key tops prev ≠ .error .fuelOut) ∧
    (∀ fuel : Nat, 3 ≤ fuel →
      Ent.get fuel cyclicM "M.A" [("M", cyclicM)] [] =
        .error (.keyError "M.A cannot be resolved in this package") ∧
      Ent.get fuel cyclicM "M.B" [("M", cyclicM)] [] =
        .error (.keyError "M.B cannot be resolved in this package")) := by
  constructor
  · exact get_no_fuelOut
  · intro fuel hfuel
    obtain ⟨k, rfl⟩ : ∃ k, fuel = k + 3 := ⟨fuel - 3, by omega⟩
    exact ⟨rfl, rfl⟩

/-- C3 witness: the amended claim instantiated on the cyclic pair — budget
5 against the two stored alias targets is not exhausted, and budget 3
already yields the cannot-be-resolved `KeyError` for both names. -/
theorem claim_C3_witness :
    Ent.get 5 cyclicM "M.A" [("M", cyclicM)] [] ≠ .error .fuelOut ∧
    Ent.get 3 cyclicM "M.A" [("M", cyclicM)] [] =
      .error (.keyError "M.A cannot be resolved in this package") ∧
    Ent.get 3 cyclicM "M.B" [("M", cyclicM)] [] =
      .error (.keyError "M.B cannot be resolved in this package") :=
  ⟨claim_C3.1 [("M", cyclicM)] ["M.B", "M.A"] (by decide) 5 cyclicM "M.A" []
      (by decide) (by decide) (by decide) (by decide) (by decide),
    (claim_C3.2 3 (by decide)).1, (claim_C3.2 3 (by decide)).2⟩

end Py4a
